import Mathlib

/-!
Shallow embedding of the `rescreener` package (bootstrap analysis of an
in-vivo CRISPR screen).  Python dataframes are modelled as lists of
structured rows, floats as rationals, machine strings as Lean `String`
(whose data is a `List Char`, matching Python's sequence-of-characters
view), and raised exceptions as `Option`/`Except` results.
-/

namespace Rescreener

/-! ## Python string primitives used by the source -/

/-- Decimal digit character, as produced by Python `str()` on a digit. -/
def digitChar : ℕ → Char
  | 0 => '0'
  | 1 => '1'
  | 2 => '2'
  | 3 => '3'
  | 4 => '4'
  | 5 => '5'
  | 6 => '6'
  | 7 => '7'
  | 8 => '8'
  | _ => '9'

/-- Character list of Python `str(n)` for a non-negative integer `n`
(most significant digit first). -/
def natToChars (n : ℕ) : List Char :=
  if _h : n < 10 then [digitChar n]
  else natToChars (n / 10) ++ [digitChar (n % 10)]
decreasing_by
  exact Nat.div_lt_self (by omega) (by omega)

/-- Python `str(n)` for a non-negative integer. -/
def natRepr (n : ℕ) : String :=
  ⟨natToChars n⟩

/-- Test for an ASCII decimal digit. -/
def isDigitCh (c : Char) : Bool :=
  48 ≤ c.toNat && c.toNat ≤ 57

/-- Python `int(token)` restricted to non-empty all-digit tokens (the only
shape produced by the cohort naming scheme); any other token makes the
source raise `ValueError`, modelled as `none`. -/
def pyIntChars (cs : List Char) : Option ℕ :=
  if cs ≠ [] ∧ cs.all isDigitCh then
    some (cs.foldl (fun a c => 10 * a + (c.toNat - 48)) 0)
  else none

/-- Worker for Python `str.split(sep)`: `acc` holds the characters of the
current field in reverse. -/
def pySplitAux (sep : Char) (acc : List Char) : List Char → List (List Char)
  | [] => [acc.reverse]
  | c :: cs =>
    if c = sep then acc.reverse :: pySplitAux sep [] cs
    else pySplitAux sep (c :: acc) cs

/-- Python `s.split(sep)` for a single-character separator. -/
def pySplit (sep : Char) (s : List Char) : List (List Char) :=
  pySplitAux sep [] s

/-! ## Cohort naming and name parsing

`rescreen.py` builds each cohort name as
`f"{SUBSET_NAME_PREFIX}_{subset_size}_{rep_index}"`; `analysis.py` parses
`int(name.split("_")[-1])` (replicate) and `int(name.split("_")[-2])`
(subset). -/

/-- Modelled from the spec: the subset-name constant lives in the missing
`rescreener/_constants.py` module.  The spec's persisted-layout contract
lists subset files as `<subset_size>_<replicate_index>.gene_results.tsv`,
i.e. with an empty leading tag, so the closest faithful value is `""`. -/
def subsetNameTag : String := ""

/-- Cohort name `f"{tag}_{subset_size}_{rep_index}"` from
`Rescreener.run_bootstraps`.  The tag is kept abstract so every theorem
about naming holds for any value of the missing constant. -/
def mkSubsetName (tag : String) (size rep : ℕ) : String :=
  tag ++ "_" ++ natRepr size ++ "_" ++ natRepr rep

/-- Python `int(name.split("_")[-1])` from
`BootstrapAnalysis._load_bootstraps` (the replicate index); `none` models
the `IndexError`/`ValueError` raised on a malformed name. -/
def cohortReplicate (name : String) : Option ℕ :=
  match (pySplit '_' name.data).reverse with
  | t :: _ => pyIntChars t
  | [] => none

/-- Python `int(name.split("_")[-2])` from
`BootstrapAnalysis._load_bootstraps` (the subset size). -/
def cohortSubset (name : String) : Option ℕ :=
  match (pySplit '_' name.data).reverse with
  | _ :: t :: _ => pyIntChars t
  | _ => none

/-- Both metadata integers parsed from a cohort name, `(replicate, subset)`;
`none` models the exception raised while building the literal columns. -/
def cohortMeta (name : String) : Option (ℕ × ℕ) :=
  match cohortReplicate name, cohortSubset name with
  | some r, some s => some (r, s)
  | _, _ => none

/-! ## Data model

A result-table row carries a gene name and an `fdr` value (tool-defined
score columns are passed through untouched and play no role here). -/

structure HitRow where
  gene : String
  fdr : ℚ
deriving DecidableEq

/-- One row of the concatenated bootstrap table, after
`_load_bootstraps` attaches the cohort identity columns. -/
structure BootstrapRow where
  gene : String
  fdr : ℚ
  cohort : String
  replicate : ℕ
  subset : ℕ
deriving DecidableEq

/-- The analysis parameters held on `BootstrapAnalysis` (`self.fdr`,
`self.ignore_amalgams`). -/
structure AnalysisParams where
  fdr : ℚ
  ignoreAmalgams : Bool
deriving DecidableEq

/-- One row of the `_measure_overlap` output. -/
structure OverlapRecord where
  cohort : String
  replicate : ℕ
  subset : ℕ
  num_overlapping : ℕ
  frac_overlapping : ℚ
deriving DecidableEq

/-- One row of the `_measure_hit_recovery` output. -/
structure RecoveryRecord where
  gene : String
  num_tests : ℕ
  frac_tests : ℚ
deriving DecidableEq

/-! ## BootstrapAnalysis._load_hits_dataframe and loaders -/

/-- `BootstrapAnalysis._load_hits_dataframe`: keep rows with
`fdr < threshold` (strict), then, when `ignoreAmalgams` is set, drop rows
whose gene name starts with `"amalgam"`. -/
def loadHitsDataframe (rows : List HitRow) (fdr : ℚ) (ignoreAmalgams : Bool) :
    List HitRow :=
  let frame := rows.filter (fun r => r.fdr < fdr)
  if ignoreAmalgams then
    frame.filter (fun r => ¬ r.gene.startsWith "amalgam")
  else frame

/-- `BootstrapAnalysis._load_standard`: the standard table is loaded with
the analysis' own `fdr` and `ignore_amalgams` values. -/
def loadStandardOf (p : AnalysisParams) (rows : List HitRow) : List HitRow :=
  loadHitsDataframe rows p.fdr p.ignoreAmalgams

/-- A bootstrap row assembled from one cohort file's retained row. -/
def mkBootstrapRow (name : String) (rep sub : ℕ) (h : HitRow) : BootstrapRow :=
  { gene := h.gene, fdr := h.fdr, cohort := name, replicate := rep, subset := sub }

/-- `BootstrapAnalysis._load_bootstraps`: each subset file (given here as
its cohort name together with its parsed rows) is FDR-filtered via
`_load_hits_dataframe(path, self.fdr)` — note that `ignore_amalgams` is
NOT forwarded at this call site, so its default `True` applies regardless
of `p.ignoreAmalgams` — then tagged with `cohort`, `replicate`, `subset`
columns and all tables are concatenated.  `none` models the `ValueError`
raised when a cohort name does not parse. -/
def loadBootstrapsOf (p : AnalysisParams) (files : List (String × List HitRow)) :
    Option (List BootstrapRow) :=
  (files.mapM (fun nr =>
    (cohortMeta nr.1).map (fun m =>
      (loadHitsDataframe nr.2 p.fdr true).map (mkBootstrapRow nr.1 m.1 m.2)))).map
    List.flatten

/-! ## BootstrapAnalysis._measure_overlap -/

/-- Distinct gene names of the standard table
(`self.standard.select("gene").to_series().unique()`). -/
def standardGenes (standard : List HitRow) : List String :=
  (standard.map (fun r => r.gene)).dedup

/-- The distinct `(cohort, replicate, subset)` keys of the bootstrap
table, i.e. the groups of `group_by(["cohort", "replicate", "subset"])`. -/
def overlapGroups (boot : List BootstrapRow) : List (String × ℕ × ℕ) :=
  (boot.map (fun r => (r.cohort, r.replicate, r.subset))).dedup

/-- Ascending `(subset, replicate)` comparison used by the final
`.sort(["subset", "replicate"])`. -/
def overlapLe (a b : OverlapRecord) : Bool :=
  a.subset < b.subset || (a.subset = b.subset && a.replicate ≤ b.replicate)

/-- Number of rows of one `(cohort, replicate, subset)` group whose gene
is a member of the distinct standard gene set
(`pl.col("gene").is_in(in_set).sum()`). -/
def numOverlapping (standard : List HitRow) (boot : List BootstrapRow)
    (k : String × ℕ × ℕ) : ℕ :=
  ((boot.filter (fun r => (r.cohort, r.replicate, r.subset) = k)).filter
    (fun r => r.gene ∈ standardGenes standard)).length

/-- `BootstrapAnalysis._measure_overlap`: per `(cohort, replicate, subset)`
group, count rows whose gene is in the distinct standard gene set, divide
by the number of distinct standard genes, and sort by subset then
replicate (a stable sort, modelling the dataframe sort). -/
def measureOverlap (standard : List HitRow) (boot : List BootstrapRow) :
    List OverlapRecord :=
  List.insertionSort (fun a b => overlapLe a b = true)
    ((overlapGroups boot).map (fun k =>
      { cohort := k.1, replicate := k.2.1, subset := k.2.2,
        num_overlapping := numOverlapping standard boot k,
        frac_overlapping := (numOverlapping standard boot k : ℚ)
          / ((standardGenes standard).length : ℚ) }))

/-! ## BootstrapAnalysis._measure_hit_recovery -/

/-- The filtered scope of `_measure_hit_recovery`: bootstrap rows whose
gene is in the standard set, further restricted to one subset size when
`cohortSize` is given. -/
def recoveryScope (standard : List HitRow) (boot : List BootstrapRow)
    (cohortSize : Option ℕ) : List BootstrapRow :=
  let inSet := standardGenes standard
  let s := boot.filter (fun r => r.gene ∈ inSet)
  match cohortSize with
  | none => s
  | some c => s.filter (fun r => r.subset = c)

/-- Ascending `frac_tests` comparison used by the final
`.sort("frac_tests")`. -/
def recoveryLe (a b : RecoveryRecord) : Bool :=
  a.frac_tests ≤ b.frac_tests

/-- `BootstrapAnalysis._measure_hit_recovery`: within the filtered scope,
`total_tests` is the number of distinct cohorts
(`subset.select("cohort").n_unique()`), and per gene `num_tests` is
`pl.col("cohort").len()` — the number of rows of that gene's group — with
`frac_tests = num_tests / total_tests`; output sorted by `frac_tests`. -/
def measureHitRecovery (standard : List HitRow) (boot : List BootstrapRow)
    (cohortSize : Option ℕ) : List RecoveryRecord :=
  List.insertionSort (fun a b => recoveryLe a b = true)
    ((((recoveryScope standard boot cohortSize).map (fun r => r.gene)).dedup).map
      (fun g =>
        { gene := g,
          num_tests := ((recoveryScope standard boot cohortSize).filter
            (fun r => r.gene = g)).length,
          frac_tests := (((recoveryScope standard boot cohortSize).filter
              (fun r => r.gene = g)).length : ℚ)
            / ((((recoveryScope standard boot cohortSize).map
                (fun r => r.cohort)).dedup).length : ℚ) }))

/-! ## Rescreener.run_bootstraps: cohort generation

`np.random` is a single process-global generator seeded once by
`np.random.seed(seed)` and then consumed sequentially by each
`np.random.choice` call of the nested loops, all before the worker pool
starts.  It is modelled as an abstract deterministic `Sampler` whose
state is threaded through the loops in program order; the sampling mode
(with/without replacement) is part of the sampler. -/

structure Sampler where
  draw : ℕ → List String → ℕ → List String × ℕ

/-- `np.arange(start, stop, step)` over the natural numbers
(`step > 0`): `start, start+step, …` while `< stop`. -/
def npArange (start stop step : ℕ) : List ℕ :=
  (List.range ((stop - start + step - 1) / step)).map (fun k => start + k * step)

/-- Inner loop `for rep_index in range(num_reps)`: one
`np.random.choice(test_libraries, subset_size, replace=…)` call per
replicate index, threading the RNG state, each paired with its cohort
name. -/
def drawLoop (smp : Sampler) (libs : List String) (size : ℕ) :
    List ℕ → ℕ → List (String × List String) × ℕ
  | [], st => ([], st)
  | r :: rs, st =>
    let d := smp.draw st libs size
    let rest := drawLoop smp libs size rs d.2
    ((mkSubsetName subsetNameTag size r, d.1) :: rest.1, rest.2)

/-- Outer loop `for subset_size in np.arange(1, len(test_libraries),
step_value)`. -/
def sizesLoop (smp : Sampler) (libs : List String) (numReps : ℕ) :
    List ℕ → ℕ → List (String × List String) × ℕ
  | [], st => ([], st)
  | s :: ss, st =>
    let batch := drawLoop smp libs s (List.range numReps) st
    let rest := sizesLoop smp libs numReps ss batch.2
    (batch.1 ++ rest.1, rest.2)

/-- The fully materialized `args_list` of `Rescreener.run_bootstraps`:
every cohort `(name, treatment_subset)` is produced before any external
invocation begins. -/
def buildArgsList (smp : Sampler) (testLibs : List String)
    (stepValue numReps seed : ℕ) : List (String × List String) :=
  (sizesLoop smp testLibs numReps (npArange 1 testLibs.length stepValue) seed).1

/-- Argument vector built by `Rescreener._run_crispr_screen`. -/
def runCrisprScreenArgs (tablePath outPath : String)
    (refLibs testLibs : List String) (aggMethod : String)
    (useProduct : Bool) (minBaseMean : Option ℤ) : List String :=
  ["crispr_screen", "test", "-i", tablePath, "-o", outPath, "-c"] ++ refLibs
    ++ ["-t"] ++ testLibs ++ ["-g", aggMethod, "-T", "1"]
    ++ (if useProduct then ["--use-product"] else [])
    ++ (match minBaseMean with
        | some m => ["--min-base-mean", toString m]
        | none => [])

/-- `multiprocessing.Pool(processes=workers)` + `pool.imap(f, argsList)`:
`imap` yields one result per argument in argument order; the worker count
only bounds parallelism. -/
def poolMap {α β : Type} (workers : Option ℤ) (f : α → β) (l : List α) :
    List β :=
  match workers with
  | _ => l.map f

/-- `Rescreener.run_bootstraps`: seed the sampler, materialize the whole
`args_list`, then fan the already-fixed list out over the pool, each entry
becoming one `crispr_screen` invocation writing under the subsets
directory. -/
def runBootstraps (smp : Sampler) (tablePath : String)
    (refLibs testLibs : List String) (aggMethod : String) (useProduct : Bool)
    (minBaseMean : Option ℤ) (subsetDir : String)
    (stepValue numReps seed : ℕ) (nThreads : ℤ) : List (List String) :=
  let argsList := buildArgsList smp testLibs stepValue numReps seed
  let totalThreads : Option ℤ := if nThreads > 0 then some nThreads else none
  poolMap totalThreads
    (fun a => runCrisprScreenArgs tablePath (subsetDir ++ "/" ++ a.1) refLibs
      a.2 aggMethod useProduct minBaseMean)
    argsList

/-! ## Rescreener._initialize_output_dir

The filesystem is modelled as the list of existing directory paths, a
path being its list of components.  `shutil.rmtree` removes a root and
everything below it; `os.makedirs` creates every missing ancestor of its
argument. -/

abbrev Path := List String

/-- Error taxonomy of the spec, mapped onto the exceptions the source
raises: `configError` is the `ValueError` for a missing prefix and
`directoryConflictError` is the `FileExistsError` for an existing output
root. -/
inductive RescreenError where
  | configError : RescreenError
  | directoryConflictError : RescreenError
deriving DecidableEq

/-- Every non-empty ancestor of a path, shortest first. -/
def ancestors (p : Path) : List Path :=
  (List.range p.length).map (fun k => p.take (k + 1))

/-- `os.makedirs(p)`: create each missing ancestor of `p`, in order. -/
def makedirs (p : Path) (fs : List Path) : List Path :=
  fs ++ (ancestors p).filter (fun q => ¬ q ∈ fs)

/-- `shutil.rmtree(root)`: remove `root` and every directory below it. -/
def rmtree (root : Path) (fs : List Path) : List Path :=
  fs.filter (fun p => ¬ root.isPrefixOf p)

/-- Modelled from the spec: `FULL_DIR` from the missing
`rescreener/_constants.py`; the spec's layout names it `full/`. -/
def fullDirName : String := "full"

/-- Modelled from the spec: `SUBSET_DIR` from the missing
`rescreener/_constants.py`; the spec's layout names it `subsets/`. -/
def subsetDirName : String := "subsets"

/-- `Rescreener._initialize_output_dir`, returning the outcome together
with the filesystem as left at the point of return or raise: a missing
prefix raises before any filesystem access; an existing root with
`overwrite=False` raises `FileExistsError` (the spec's
`DirectoryConflictError`) touching nothing; otherwise the root is
(re)created with its `full/` and `subsets/` subdirectories. -/
def initializeOutputDir (pre : Option Path) (overwrite : Bool)
    (fs : List Path) : Except RescreenError Unit × List Path :=
  match pre with
  | none => (Except.error RescreenError.configError, fs)
  | some root =>
    if root ∈ fs then
      if overwrite then
        let fs1 := rmtree root fs
        let fs2 := makedirs (root ++ [fullDirName]) fs1
        let fs3 := makedirs (root ++ [subsetDirName]) fs2
        (Except.ok (), fs3)
      else
        (Except.error RescreenError.directoryConflictError, fs)
    else
      let fs2 := makedirs (root ++ [fullDirName]) fs
      let fs3 := makedirs (root ++ [subsetDirName]) fs2
      (Except.ok (), fs3)

/-! ## Lemmas: decimal representation -/

theorem isDigitCh_digitChar (d : ℕ) : isDigitCh (digitChar d) = true := by
  unfold digitChar
  split <;> decide

theorem toNat_digitChar (d : ℕ) (h : d < 10) : (digitChar d).toNat = 48 + d := by
  interval_cases d <;> decide

theorem isDigitCh_of_mem_natToChars {c : Char} {n : ℕ}
    (h : c ∈ natToChars n) : isDigitCh c = true := by
  induction n using Nat.strong_induction_on with
  | _ n ih =>
    rw [natToChars] at h
    split at h
    · rcases List.mem_singleton.mp h with rfl
      exact isDigitCh_digitChar n
    · rcases List.mem_append.mp h with h1 | h1
      · exact ih (n / 10) (Nat.div_lt_self (by omega) (by omega)) h1
      · rcases List.mem_singleton.mp h1 with rfl
        exact isDigitCh_digitChar (n % 10)

theorem sep_not_mem_natToChars {n : ℕ} : '_' ∉ natToChars n := by
  intro h
  have := isDigitCh_of_mem_natToChars h
  simp [isDigitCh] at this

theorem natToChars_ne_nil (n : ℕ) : natToChars n ≠ [] := by
  rw [natToChars]
  split
  · simp
  · simp

theorem foldl_natToChars (n : ℕ) :
    ∀ a : ℕ, (natToChars n).foldl (fun a c => 10 * a + (c.toNat - 48)) a
      = a * 10 ^ (natToChars n).length + n := by
  induction n using Nat.strong_induction_on with
  | _ n ih =>
    intro a
    rw [natToChars]
    split
    · next h =>
      simp [List.foldl, toNat_digitChar n h]
      omega
    · next h =>
      rw [List.foldl_append, List.length_append]
      rw [ih (n / 10) (Nat.div_lt_self (by omega) (by omega)) a]
      simp [List.foldl, toNat_digitChar (n % 10) (Nat.mod_lt n (by omega))]
      rw [pow_succ]
      have h2 : 10 * (n / 10) + n % 10 = n := Nat.div_add_mod n 10
      ring_nf
      omega

theorem pyIntChars_natToChars (n : ℕ) : pyIntChars (natToChars n) = some n := by
  unfold pyIntChars
  rw [if_pos]
  · rw [foldl_natToChars n 0]
    simp
  · refine ⟨natToChars_ne_nil n, ?_⟩
    rw [List.all_eq_true]
    intro c hc
    exact isDigitCh_of_mem_natToChars hc

/-! ## Lemmas: Python split -/

theorem pySplitAux_no_sep {sep : Char} :
    ∀ (xs acc : List Char), sep ∉ xs →
      pySplitAux sep acc xs = [acc.reverse ++ xs] := by
  intro xs
  induction xs with
  | nil => intro acc _; simp [pySplitAux]
  | cons c cs ih =>
    intro acc h
    have hc : c ≠ sep := fun hcs => h (hcs ▸ List.mem_cons_self c cs)
    rw [pySplitAux, if_neg hc, ih (c :: acc) (fun hm => h (List.mem_cons_of_mem c hm))]
    simp

theorem pySplitAux_append_sep {sep : Char} :
    ∀ (xs acc ys : List Char), sep ∉ xs →
      pySplitAux sep acc (xs ++ sep :: ys)
        = (acc.reverse ++ xs) :: pySplitAux sep [] ys := by
  intro xs
  induction xs with
  | nil =>
    intro acc ys _
    simp [pySplitAux]
  | cons c cs ih =>
    intro acc ys h
    have hc : c ≠ sep := fun hcs => h (hcs ▸ List.mem_cons_self c cs)
    rw [List.cons_append, pySplitAux, if_neg hc,
      ih (c :: acc) ys (fun hm => h (List.mem_cons_of_mem c hm))]
    simp

theorem pySplitAux_last_two {sep : Char} {s r : List Char}
    (hs : sep ∉ s) (hr : sep ∉ r) :
    ∀ (P acc : List Char), ∃ pre,
      pySplitAux sep acc (P ++ sep :: (s ++ sep :: r)) = pre ++ [s, r] := by
  intro P
  induction P with
  | nil =>
    intro acc
    refine ⟨[acc.reverse], ?_⟩
    rw [List.nil_append, pySplitAux, if_pos rfl,
      pySplitAux_append_sep s [] r hs, pySplitAux_no_sep r [] hr]
    simp
  | cons c cs ih =>
    intro acc
    by_cases hc : c = sep
    · subst hc
      rcases ih [] with ⟨pre, hpre⟩
      refine ⟨acc.reverse :: pre, ?_⟩
      rw [List.cons_append, pySplitAux, if_pos rfl, hpre]
      simp
    · rcases ih (c :: acc) with ⟨pre, hpre⟩
      refine ⟨pre, ?_⟩
      rw [List.cons_append, pySplitAux, if_neg hc, hpre]

/-! ## Lemmas: cohort-name round trip -/

theorem mkSubsetName_data (tag : String) (s r : ℕ) :
    (mkSubsetName tag s r).data
      = tag.data ++ '_' :: (natToChars s ++ '_' :: natToChars r) := by
  show (tag ++ "_" ++ natRepr s ++ "_" ++ natRepr r).data = _
  simp [String.data_append, natRepr]

theorem pySplit_mkSubsetName (tag : String) (s r : ℕ) :
    ∃ pre, pySplit '_' (mkSubsetName tag s r).data
      = pre ++ [natToChars s, natToChars r] := by
  rw [mkSubsetName_data]
  exact pySplitAux_last_two sep_not_mem_natToChars sep_not_mem_natToChars tag.data []

theorem cohortReplicate_mkSubsetName (tag : String) (s r : ℕ) :
    cohortReplicate (mkSubsetName tag s r) = some r := by
  rcases pySplit_mkSubsetName tag s r with ⟨pre, hpre⟩
  unfold cohortReplicate
  rw [hpre, List.reverse_append]
  simp [pyIntChars_natToChars]

theorem cohortSubset_mkSubsetName (tag : String) (s r : ℕ) :
    cohortSubset (mkSubsetName tag s r) = some s := by
  rcases pySplit_mkSubsetName tag s r with ⟨pre, hpre⟩
  unfold cohortSubset
  rw [hpre, List.reverse_append]
  simp [pyIntChars_natToChars]

theorem cohortMeta_mkSubsetName (tag : String) (s r : ℕ) :
    cohortMeta (mkSubsetName tag s r) = some (r, s) := by
  unfold cohortMeta
  rw [cohortReplicate_mkSubsetName, cohortSubset_mkSubsetName]

theorem mkSubsetName_inj {tag : String} {s r s' r' : ℕ}
    (h : mkSubsetName tag s r = mkSubsetName tag s' r') : s = s' ∧ r = r' := by
  have h1 := cohortMeta_mkSubsetName tag s r
  have h2 := cohortMeta_mkSubsetName tag s' r'
  rw [h, h2] at h1
  simp at h1
  exact ⟨h1.2.symm, h1.1.symm⟩

/-! ## Claim theorems -/

/-- Claim C5: a row of a loaded result table is retained if and only if its
`fdr` is strictly below the threshold (a row exactly at the threshold is
excluded) and, when the category filter is enabled, its gene name does not
begin with the reserved prefix `"amalgam"`. -/
theorem hits_row_retained_iff (rows : List HitRow) (t : ℚ) (ig : Bool)
    (r : HitRow) :
    r ∈ loadHitsDataframe rows t ig ↔
      r ∈ rows ∧ r.fdr < t ∧ (ig = true → r.gene.startsWith "amalgam" = false) := by
  unfold loadHitsDataframe
  cases ig
  · simp [List.mem_filter]
  · simp [List.mem_filter, and_assoc]
    exact fun _ => and_comm

/-- Claim C9 (amended): the on-disk artifact name of a cohort is
`"{tag}_{subset_size}_{replicate_index}"` for the configured subset-name
tag — not the bare `"{subset_size}_{replicate_index}"` of the spec —
and, for every tag value, splitting the name on `'_'` and taking the last
token as replicate and the second-to-last token as subset recovers exactly
the pair `(replicate, subset)`, which also makes distinct
`(subset, replicate)` pairs yield distinct names. -/
theorem cohort_name_round_trip (tag : String) (s r : ℕ) :
    cohortReplicate (mkSubsetName tag s r) = some r
    ∧ cohortSubset (mkSubsetName tag s r) = some s
    ∧ cohortMeta (mkSubsetName tag s r) = some (r, s) :=
  ⟨cohortReplicate_mkSubsetName tag s r, cohortSubset_mkSubsetName tag s r,
    cohortMeta_mkSubsetName tag s r⟩

/-- Claim C9, counterexample: with the spec-modelled subset-name tag the
artifact name of the cohort `(subset_size 1, replicate 0)` is `"_1_0"`,
not `"1_0"`; indeed `mkSubsetName tag 1 0` has length `tag.length + 4`,
so it differs from `"1_0"` for every tag. -/
theorem cohort_name_has_leading_tag :
    mkSubsetName subsetNameTag 1 0 ≠ "1_0" := by
  decide

/-- Claim C10: two analysis runs over the same files and FDR threshold
that differ only in the amalgam-exclusion flag load the identical
bootstrap table — `_load_bootstraps` never forwards
`self.ignore_amalgams`, so the per-cohort loads always use the default
(exclusion enabled) and only the standard set can depend on the flag. -/
theorem bootstrap_table_ignores_amalgam_flag (p₁ p₂ : AnalysisParams)
    (files : List (String × List HitRow)) (h : p₁.fdr = p₂.fdr) :
    loadBootstrapsOf p₁ files = loadBootstrapsOf p₂ files := by
  unfold loadBootstrapsOf
  rw [h]

/-- Witness for `bootstrap_table_ignores_amalgam_flag` at a concrete
input on which the two flag values disagree for the standard set. -/
theorem bootstrap_table_ignores_amalgam_flag_witness :
    (⟨1/10, true⟩ : AnalysisParams).fdr = (⟨1/10, false⟩ : AnalysisParams).fdr
    ∧ loadBootstrapsOf ⟨1/10, true⟩ [("s_1_0", [⟨"amalgamA", 0⟩, ⟨"B", 0⟩])]
      = loadBootstrapsOf ⟨1/10, false⟩ [("s_1_0", [⟨"amalgamA", 0⟩, ⟨"B", 0⟩])] :=
  ⟨rfl, bootstrap_table_ignores_amalgam_flag _ _ _ rfl⟩

/-- Claim C8: the ordered cohort sequence of a bootstrap run is a function
of the sampler (seed and replacement mode), the step, the replicate count
and the test-library set alone: the whole `args_list` is materialized
before any external invocation, and the resulting ordered invocation list
is the map of the invocation builder over that list, independent of the
worker-pool size. -/
theorem run_bootstraps_pool_independent (smp : Sampler)
    (tablePath : String) (refLibs testLibs : List String) (agg : String)
    (useProd : Bool) (mbm : Option ℤ) (subsetDir : String)
    (stepValue numReps seed : ℕ) (t₁ t₂ : ℤ) :
    runBootstraps smp tablePath refLibs testLibs agg useProd mbm subsetDir
        stepValue numReps seed t₁
      = runBootstraps smp tablePath refLibs testLibs agg useProd mbm subsetDir
        stepValue numReps seed t₂
    ∧ runBootstraps smp tablePath refLibs testLibs agg useProd mbm subsetDir
        stepValue numReps seed t₁
      = (buildArgsList smp testLibs stepValue numReps seed).map
        (fun a => runCrisprScreenArgs tablePath (subsetDir ++ "/" ++ a.1)
          refLibs a.2 agg useProd mbm) :=
  ⟨rfl, rfl⟩

/-! ## Lemmas: cohort generation -/

theorem drawLoop_map_fst (smp : Sampler) (libs : List String) (size : ℕ) :
    ∀ (rs : List ℕ) (st : ℕ),
      (drawLoop smp libs size rs st).1.map Prod.fst
        = rs.map (fun r => mkSubsetName subsetNameTag size r) := by
  intro rs
  induction rs with
  | nil => intro st; rfl
  | cons r rs ih =>
    intro st
    simp only [drawLoop, List.map_cons, ih]

theorem sizesLoop_map_fst (smp : Sampler) (libs : List String) (reps : ℕ) :
    ∀ (ss : List ℕ) (st : ℕ),
      (sizesLoop smp libs reps ss st).1.map Prod.fst
        = ss.flatMap (fun s =>
            (List.range reps).map (fun r => mkSubsetName subsetNameTag s r)) := by
  intro ss
  induction ss with
  | nil => intro st; rfl
  | cons s ss ih =>
    intro st
    simp only [sizesLoop, List.flatMap_cons, List.map_append, ih,
      drawLoop_map_fst]

theorem drawLoop_length (smp : Sampler) (libs : List String) (size : ℕ)
    (rs : List ℕ) (st : ℕ) :
    (drawLoop smp libs size rs st).1.length = rs.length := by
  have h := drawLoop_map_fst smp libs size rs st
  have h2 := congrArg List.length h
  simpa using h2

theorem sizesLoop_length (smp : Sampler) (libs : List String) (reps : ℕ) :
    ∀ (ss : List ℕ) (st : ℕ),
      (sizesLoop smp libs reps ss st).1.length = ss.length * reps := by
  intro ss
  induction ss with
  | nil => intro st; simp [sizesLoop]
  | cons s ss ih =>
    intro st
    simp only [sizesLoop, List.length_append, ih, drawLoop_length,
      List.length_range, List.length_cons]
    ring

theorem npArange_length (start stop step : ℕ) :
    (npArange start stop step).length = (stop - start + step - 1) / step := by
  simp [npArange]

theorem mem_npArange {n step : ℕ} (h : 1 ≤ step) (s : ℕ) :
    s ∈ npArange 1 n step ↔ (∃ k, s = 1 + k * step) ∧ s < n := by
  simp only [npArange, List.mem_map, List.mem_range]
  constructor
  · rintro ⟨k, hk, rfl⟩
    refine ⟨⟨k, rfl⟩, ?_⟩
    have h1 : k + 1 ≤ (n - 1 + step - 1) / step := hk
    rw [Nat.le_div_iff_mul_le (by omega)] at h1
    have h2 : (k + 1) * step = k * step + step := by ring
    omega
  · rintro ⟨⟨k, rfl⟩, hlt⟩
    refine ⟨k, ?_, rfl⟩
    have h1 : (k + 1) * step = k * step + step := by ring
    have h2 : (k + 1) * step ≤ n - 1 + step - 1 := by omega
    have h3 : k + 1 ≤ (n - 1 + step - 1) / step := by
      rw [Nat.le_div_iff_mul_le (by omega)]
      exact h2
    omega

theorem npArange_nodup {n step : ℕ} (h : 1 ≤ step) :
    (npArange 1 n step).Nodup := by
  refine List.Nodup.map ?_ (List.nodup_range _)
  intro a b hab
  simp only at hab
  have : a * step = b * step := by omega
  exact Nat.eq_of_mul_eq_mul_right (by omega) this

theorem mkSubsetName_rep_inj (tag : String) (s : ℕ) :
    Function.Injective (fun r => mkSubsetName tag s r) := by
  intro a b hab
  exact (mkSubsetName_inj hab).2

/-- Claim C4: with step ≥ 1, the generated `args_list` has exactly
`⌈(n_test_libraries − 1)/step⌉ × num_reps` entries (the ceiling written as
`(n − 1 + step − 1) / step` over the naturals), its cohort names are the
per-size blocks over the subset sizes `1, 1+step, 1+2·step, …` strictly
below `n_test_libraries` — the sizes `np.arange(1, n, step)` enumerates —
and all cohort names are distinct. -/
theorem bootstrap_cohorts_count_sizes_unique (smp : Sampler)
    (libs : List String) (stepValue numReps seed : ℕ) (h : 1 ≤ stepValue) :
    (buildArgsList smp libs stepValue numReps seed).length
      = ((libs.length - 1 + stepValue - 1) / stepValue) * numReps
    ∧ (buildArgsList smp libs stepValue numReps seed).map Prod.fst
      = (npArange 1 libs.length stepValue).flatMap
        (fun s => (List.range numReps).map (fun r => mkSubsetName subsetNameTag s r))
    ∧ (∀ s, s ∈ npArange 1 libs.length stepValue
        ↔ (∃ k, s = 1 + k * stepValue) ∧ s < libs.length)
    ∧ ((buildArgsList smp libs stepValue numReps seed).map Prod.fst).Nodup := by
  refine ⟨?_, ?_, fun s => mem_npArange h s, ?_⟩
  · rw [buildArgsList, sizesLoop_length, npArange_length]
  · rw [buildArgsList, sizesLoop_map_fst]
  · rw [buildArgsList, sizesLoop_map_fst]
    rw [List.nodup_flatMap]
    refine ⟨fun s _ => List.Nodup.map (mkSubsetName_rep_inj _ s) (List.nodup_range _), ?_⟩
    refine List.Pairwise.imp ?_ (npArange_nodup h)
    intro a b hab x hxa hxb
    rcases List.mem_map.mp hxa with ⟨r, _, rfl⟩
    rcases List.mem_map.mp hxb with ⟨r', _, hx⟩
    exact hab (mkSubsetName_inj hx.symm).1

/-- Witness for `bootstrap_cohorts_count_sizes_unique`: three test
libraries, step 1, two replicates give four uniquely named cohorts of
sizes one and two. -/
theorem bootstrap_cohorts_count_sizes_unique_witness :
    1 ≤ 1
    ∧ ((buildArgsList ⟨fun st libs n => (libs.take n, st + 1)⟩
        ["T1", "T2", "T3"] 1 2 42).length = ((3 - 1 + 1 - 1) / 1) * 2
      ∧ (buildArgsList ⟨fun st libs n => (libs.take n, st + 1)⟩
          ["T1", "T2", "T3"] 1 2 42).map Prod.fst
        = (npArange 1 3 1).flatMap
          (fun s => (List.range 2).map (fun r => mkSubsetName subsetNameTag s r))
      ∧ (∀ s, s ∈ npArange 1 3 1 ↔ (∃ k, s = 1 + k * 1) ∧ s < 3)
      ∧ ((buildArgsList ⟨fun st libs n => (libs.take n, st + 1)⟩
          ["T1", "T2", "T3"] 1 2 42).map Prod.fst).Nodup) :=
  ⟨Nat.le_refl 1,
    bootstrap_cohorts_count_sizes_unique ⟨fun st libs n => (libs.take n, st + 1)⟩
      ["T1", "T2", "T3"] 1 2 42 (Nat.le_refl 1)⟩

/-! ## Lemmas: output directory layout -/

theorem mem_rmtree {root q : Path} {fs : List Path} :
    q ∈ rmtree root fs ↔ q ∈ fs ∧ root.isPrefixOf q = false := by
  simp only [rmtree, List.mem_filter, decide_eq_true_eq, Bool.not_eq_true]

theorem mem_makedirs {p q : Path} {fs : List Path} :
    q ∈ makedirs p fs ↔ q ∈ fs ∨ q ∈ ancestors p := by
  simp only [makedirs, List.mem_append, List.mem_filter, decide_eq_true_eq]
  by_cases h : q ∈ fs <;> simp [h]

theorem mem_ancestors {q p : Path} :
    q ∈ ancestors p ↔ ∃ k < p.length, q = p.take (k + 1) := by
  simp only [ancestors, List.mem_map, List.mem_range]
  constructor
  · rintro ⟨k, hk, rfl⟩; exact ⟨k, hk, rfl⟩
  · rintro ⟨k, hk, rfl⟩; exact ⟨k, hk, rfl⟩

theorem eq_root_of_mem_ancestors {q root : Path}
    (hq : q ∈ ancestors root) (hpre : root <+: q) : q = root := by
  rcases mem_ancestors.mp hq with ⟨k, _, rfl⟩
  have h1 : root.length ≤ (root.take (k + 1)).length := hpre.length_le
  rw [List.length_take] at h1
  exact List.take_of_length_le (by omega)

theorem root_mem_ancestors {root : Path} (h : root ≠ []) :
    root ∈ ancestors root := by
  rw [mem_ancestors]
  have hl : 0 < root.length := List.length_pos.mpr h
  refine ⟨root.length - 1, by omega, ?_⟩
  rw [Nat.sub_add_cancel hl, List.take_length]

theorem ancestors_append_singleton (root : Path) (x : String) :
    ancestors (root ++ [x]) = ancestors root ++ [root ++ [x]] := by
  unfold ancestors
  rw [List.length_append, List.length_singleton, List.range_succ, List.map_append]
  congr 1
  · refine List.map_congr_left ?_
    intro k hk
    rw [List.mem_range] at hk
    exact List.take_append_of_le_length (by omega)
  · rw [List.map_singleton, List.take_of_length_le]
    rw [List.length_append, List.length_singleton]

/-- Claim C6: when the output root already exists, initialization with
`overwrite=False` fails with the directory-conflict error (the source's
`FileExistsError`) and leaves the filesystem untouched, while
`overwrite=True` recursively deletes the root subtree and recreates
exactly the root with its `full/` and `subsets/` subdirectories,
preserving everything outside the root. -/
theorem output_dir_conflict_and_overwrite (fs : List Path) (root : Path)
    (hmem : root ∈ fs) (hne : root ≠ []) :
    initializeOutputDir (some root) false fs
      = (Except.error RescreenError.directoryConflictError, fs)
    ∧ (initializeOutputDir (some root) true fs).1 = Except.ok ()
    ∧ (∀ p, root.isPrefixOf p = true →
        (p ∈ (initializeOutputDir (some root) true fs).2
          ↔ p = root ∨ p = root ++ [fullDirName] ∨ p = root ++ [subsetDirName]))
    ∧ (∀ p ∈ fs, root.isPrefixOf p = false →
        p ∈ (initializeOutputDir (some root) true fs).2) := by
  have hres : initializeOutputDir (some root) true fs
      = (Except.ok (), makedirs (root ++ [subsetDirName])
          (makedirs (root ++ [fullDirName]) (rmtree root fs))) := by
    simp [initializeOutputDir, hmem]
  refine ⟨by simp [initializeOutputDir, hmem], by rw [hres], ?_, ?_⟩
  · intro p hp
    rw [List.isPrefixOf_iff_prefix] at hp
    rw [hres]
    simp only [mem_makedirs, mem_rmtree, ancestors_append_singleton,
      List.mem_append, List.mem_singleton]
    constructor
    · rintro ((⟨_, hpf⟩ | hanc | rfl) | hanc | rfl)
      · rw [(List.isPrefixOf_iff_prefix).mpr hp] at hpf
        cases hpf
      · exact Or.inl (eq_root_of_mem_ancestors hanc hp)
      · exact Or.inr (Or.inl rfl)
      · exact Or.inl (eq_root_of_mem_ancestors hanc hp)
      · exact Or.inr (Or.inr rfl)
    · rintro (rfl | rfl | rfl)
      · exact Or.inl (Or.inr (Or.inl (root_mem_ancestors hne)))
      · exact Or.inl (Or.inr (Or.inr rfl))
      · exact Or.inr (Or.inr rfl)
  · intro p hpfs hp
    rw [hres]
    simp only [mem_makedirs, mem_rmtree]
    exact Or.inl (Or.inl ⟨hpfs, hp⟩)

/-- Witness for `output_dir_conflict_and_overwrite` at a concrete
filesystem holding the root, a stale file below it and an unrelated
directory. -/
theorem output_dir_conflict_and_overwrite_witness :
    (["boot"] : Path) ∈ [["boot"], ["boot", "full"], ["boot", "full", "x"], ["other"]]
    ∧ (["boot"] : Path) ≠ []
    ∧ (initializeOutputDir (some ["boot"]) false
        [["boot"], ["boot", "full"], ["boot", "full", "x"], ["other"]]
      = (Except.error RescreenError.directoryConflictError,
          [["boot"], ["boot", "full"], ["boot", "full", "x"], ["other"]])) := by
  refine ⟨by simp, by simp, ?_⟩
  exact (output_dir_conflict_and_overwrite
    [["boot"], ["boot", "full"], ["boot", "full", "x"], ["other"]] ["boot"]
    (by simp) (by simp)).1

/-! ## Lemmas: duplicate-free projections -/

theorem nodup_map_snd_of_fst_const {α β γ : Type} {l : List α}
    {f : α → β} {g : α → γ} {b : β}
    (h : (l.map fun x => (f x, g x)).Nodup) (hc : ∀ x ∈ l, f x = b) :
    (l.map g).Nodup := by
  induction l with
  | nil => simp
  | cons a l ih =>
    simp only [List.map_cons, List.nodup_cons] at h ⊢
    refine ⟨?_, ih h.2 (fun x hx => hc x (List.mem_cons_of_mem a hx))⟩
    intro hga
    rcases List.mem_map.mp hga with ⟨x, hx, hgx⟩
    refine h.1 (List.mem_map.mpr ⟨x, hx, ?_⟩)
    rw [hgx, hc x (List.mem_cons_of_mem a hx), hc a (List.mem_cons_self a l)]

theorem nodup_map_fst_of_snd_const {α β γ : Type} {l : List α}
    {f : α → β} {g : α → γ} {c : γ}
    (h : (l.map fun x => (f x, g x)).Nodup) (hc : ∀ x ∈ l, g x = c) :
    (l.map f).Nodup := by
  induction l with
  | nil => simp
  | cons a l ih =>
    simp only [List.map_cons, List.nodup_cons] at h ⊢
    refine ⟨?_, ih h.2 (fun x hx => hc x (List.mem_cons_of_mem a hx))⟩
    intro hfa
    rcases List.mem_map.mp hfa with ⟨x, hx, hfx⟩
    refine h.1 (List.mem_map.mpr ⟨x, hx, ?_⟩)
    rw [hfx, hc x (List.mem_cons_of_mem a hx), hc a (List.mem_cons_self a l)]

theorem recoveryScope_sublist (std : List HitRow) (boot : List BootstrapRow)
    (sz : Option ℕ) : List.Sublist (recoveryScope std boot sz) boot := by
  unfold recoveryScope
  cases sz with
  | none => exact List.filter_sublist _
  | some c => exact (List.filter_sublist _).trans (List.filter_sublist _)

theorem length_le_of_nodup_of_subset {α : Type} [DecidableEq α]
    {l₁ l₂ : List α} (h₁ : l₁.Nodup) (h₂ : l₂.Nodup) (hs : ∀ a ∈ l₁, a ∈ l₂) :
    l₁.length ≤ l₂.length := by
  rw [← List.toFinset_card_of_nodup h₁, ← List.toFinset_card_of_nodup h₂]
  refine Finset.card_le_card ?_
  intro a ha
  rw [List.mem_toFinset] at ha
  rw [List.mem_toFinset]
  exact hs a ha

/-- Claim C1 (amended): for every recovery record, `num_tests` is the
number of qualifying rows of that gene in the filtered scope — which
equals the count of distinct cohorts containing a qualifying row whenever
no gene occurs on two rows of the same cohort — and
`frac_tests = num_tests / total_tests` where `total_tests` is the number
of distinct cohorts present in the filtered scope, not the number of
rows. -/
theorem recovery_counts_distinct_cohorts (std : List HitRow)
    (boot : List BootstrapRow) (sz : Option ℕ)
    (h : (boot.map fun r => (r.gene, r.cohort)).Nodup) :
    ∀ rec ∈ measureHitRecovery std boot sz,
      rec.num_tests
        = ((recoveryScope std boot sz).filter
            (fun r => r.gene = rec.gene)).length
      ∧ rec.num_tests
        = (((recoveryScope std boot sz).filter
            (fun r => r.gene = rec.gene)).map (fun r => r.cohort)).dedup.length
      ∧ rec.frac_tests = (rec.num_tests : ℚ)
          / ((((recoveryScope std boot sz).map (fun r => r.cohort)).dedup.length : ℕ) : ℚ) := by
  intro rec hrec
  unfold measureHitRecovery at hrec
  rw [List.mem_insertionSort] at hrec
  rcases List.mem_map.mp hrec with ⟨g, _, rfl⟩
  refine ⟨rfl, ?_, rfl⟩
  show ((recoveryScope std boot sz).filter (fun r => r.gene = g)).length
    = (((recoveryScope std boot sz).filter
        (fun r => r.gene = g)).map (fun r => r.cohort)).dedup.length
  have hsub : List.Sublist
      ((recoveryScope std boot sz).filter (fun r => r.gene = g)) boot :=
    (List.filter_sublist _).trans (recoveryScope_sublist std boot sz)
  have hnd : (((recoveryScope std boot sz).filter (fun r => r.gene = g)).map
      (fun r => (r.gene, r.cohort))).Nodup :=
    List.Nodup.sublist (hsub.map _) h
  have hconst : ∀ r ∈ (recoveryScope std boot sz).filter (fun r => r.gene = g),
      r.gene = g := by
    intro r hr
    have := (List.mem_filter.mp hr).2
    simpa using this
  have hcoh : (((recoveryScope std boot sz).filter (fun r => r.gene = g)).map
      (fun r => r.cohort)).Nodup :=
    nodup_map_snd_of_fst_const hnd hconst
  rw [List.dedup_eq_self.mpr hcoh, List.length_map]

/-- Witness for `recovery_counts_distinct_cohorts` on a duplicate-free
bootstrap table. -/
theorem recovery_counts_distinct_cohorts_witness :
    (([⟨"A", 0, "c_1_0", 0, 1⟩, ⟨"A", 0, "c_2_0", 0, 2⟩] : List BootstrapRow).map
        (fun r => (r.gene, r.cohort))).Nodup
    ∧ ∀ rec ∈ measureHitRecovery [⟨"A", 0⟩]
        [⟨"A", 0, "c_1_0", 0, 1⟩, ⟨"A", 0, "c_2_0", 0, 2⟩] none,
      rec.num_tests
        = ((recoveryScope [⟨"A", 0⟩]
            [⟨"A", 0, "c_1_0", 0, 1⟩, ⟨"A", 0, "c_2_0", 0, 2⟩] none).filter
            (fun r => r.gene = rec.gene)).length
      ∧ rec.num_tests
        = (((recoveryScope [⟨"A", 0⟩]
            [⟨"A", 0, "c_1_0", 0, 1⟩, ⟨"A", 0, "c_2_0", 0, 2⟩] none).filter
            (fun r => r.gene = rec.gene)).map (fun r => r.cohort)).dedup.length
      ∧ rec.frac_tests = (rec.num_tests : ℚ)
          / ((((recoveryScope [⟨"A", 0⟩]
              [⟨"A", 0, "c_1_0", 0, 1⟩, ⟨"A", 0, "c_2_0", 0, 2⟩] none).map
              (fun r => r.cohort)).dedup.length : ℕ) : ℚ) :=
  ⟨by decide, recovery_counts_distinct_cohorts _ _ _ (by decide)⟩

/-- Claim C1, counterexample: a gene appearing on two rows of the same
cohort gets `num_tests = 2` — `pl.col("cohort").len()` counts rows — while
only one distinct cohort contains a qualifying row, so the stated
distinct-cohort characterization (and with it `frac_tests ≤ 1`) fails. -/
theorem recovery_row_count_counterexample :
    measureHitRecovery [⟨"A", 0⟩]
      [⟨"A", 0, "c_1_0", 0, 1⟩, ⟨"A", 0, "c_1_0", 0, 1⟩] none
      = [⟨"A", 2, 2⟩]
    ∧ (((recoveryScope [⟨"A", 0⟩]
        [⟨"A", 0, "c_1_0", 0, 1⟩, ⟨"A", 0, "c_1_0", 0, 1⟩] none).filter
        (fun r => r.gene = "A")).map (fun r => r.cohort)).dedup.length = 1
    ∧ (2 : ℕ) ≠ 1 := by
  refine ⟨?_, by decide, by decide⟩
  have h : measureHitRecovery [⟨"A", 0⟩]
      [⟨"A", 0, "c_1_0", 0, 1⟩, ⟨"A", 0, "c_1_0", 0, 1⟩] none
      = [⟨"A", 2, ((2 : ℕ) : ℚ) / ((1 : ℕ) : ℚ)⟩] := rfl
  rw [h]
  simp [RecoveryRecord.mk.injEq]

/-! ## Lemmas: overlap bounds -/

theorem numOverlapping_le (std : List HitRow) (boot : List BootstrapRow)
    (k : String × ℕ × ℕ)
    (h : (boot.map fun r => (r.gene, r.cohort, r.replicate, r.subset)).Nodup) :
    numOverlapping std boot k ≤ (standardGenes std).length := by
  have hsub : List.Sublist
      ((boot.filter (fun r => (r.cohort, r.replicate, r.subset) = k)).filter
        (fun r => r.gene ∈ standardGenes std)) boot :=
    (List.filter_sublist _).trans (List.filter_sublist _)
  have hnd : (((boot.filter (fun r => (r.cohort, r.replicate, r.subset) = k)).filter
      (fun r => r.gene ∈ standardGenes std)).map
      (fun r => (r.gene, r.cohort, r.replicate, r.subset))).Nodup :=
    List.Nodup.sublist (hsub.map _) h
  have hconst : ∀ r ∈ (boot.filter
      (fun r => (r.cohort, r.replicate, r.subset) = k)).filter
      (fun r => r.gene ∈ standardGenes std),
      (r.cohort, r.replicate, r.subset) = k := by
    intro r hr
    have h2 := (List.mem_filter.mp (List.mem_of_mem_filter hr)).2
    simpa using h2
  have hgenes : (((boot.filter (fun r => (r.cohort, r.replicate, r.subset) = k)).filter
      (fun r => r.gene ∈ standardGenes std)).map (fun r => r.gene)).Nodup :=
    nodup_map_fst_of_snd_const hnd hconst
  have hmem : ∀ a ∈ ((boot.filter
      (fun r => (r.cohort, r.replicate, r.subset) = k)).filter
      (fun r => r.gene ∈ standardGenes std)).map (fun r => r.gene),
      a ∈ standardGenes std := by
    intro a ha
    rcases List.mem_map.mp ha with ⟨r, hr, rfl⟩
    have h2 := (List.mem_filter.mp hr).2
    simpa using h2
  have hlen := length_le_of_nodup_of_subset hgenes (List.nodup_dedup _) hmem
  rw [List.length_map] at hlen
  exact hlen

/-- Claim C2 (amended): every overlap record satisfies
`frac_overlapping = num_overlapping / |distinct standard genes|` and
`frac_overlapping × |StandardSet| = num_overlapping` exactly (in the
rational model of the float arithmetic), and `0 ≤ frac_overlapping`;
`frac_overlapping ≤ 1` additionally holds whenever no gene occurs on two
rows of the same cohort — with such duplicates the count can exceed
`|StandardSet|`. -/
theorem overlap_record_invariants (std : List HitRow) (boot : List BootstrapRow)
    (h : (boot.map fun r => (r.gene, r.cohort, r.replicate, r.subset)).Nodup) :
    ∀ rec ∈ measureOverlap std boot,
      rec.frac_overlapping
        = (rec.num_overlapping : ℚ) / ((standardGenes std).length : ℚ)
      ∧ rec.frac_overlapping * ((standardGenes std).length : ℚ)
        = (rec.num_overlapping : ℚ)
      ∧ 0 ≤ rec.frac_overlapping
      ∧ rec.frac_overlapping ≤ 1 := by
  intro rec hrec
  unfold measureOverlap at hrec
  rw [List.mem_insertionSort] at hrec
  rcases List.mem_map.mp hrec with ⟨k, _, rfl⟩
  have hle := numOverlapping_le std boot k h
  by_cases hS : (standardGenes std).length = 0
  · have hempty : standardGenes std = [] := List.length_eq_zero.mp hS
    have hzero : numOverlapping std boot k = 0 := by
      simp [numOverlapping, hempty]
    refine ⟨rfl, ?_, ?_, ?_⟩
    · show ((numOverlapping std boot k : ℚ) / ((standardGenes std).length : ℚ))
        * ((standardGenes std).length : ℚ) = (numOverlapping std boot k : ℚ)
      rw [hzero, hS]
      simp
    · show 0 ≤ (numOverlapping std boot k : ℚ) / ((standardGenes std).length : ℚ)
      positivity
    · show (numOverlapping std boot k : ℚ) / ((standardGenes std).length : ℚ) ≤ 1
      rw [hzero, hS]
      simp
  · have hSq : ((standardGenes std).length : ℚ) ≠ 0 := by
      exact_mod_cast hS
    refine ⟨rfl, ?_, ?_, ?_⟩
    · show ((numOverlapping std boot k : ℚ) / ((standardGenes std).length : ℚ))
        * ((standardGenes std).length : ℚ) = (numOverlapping std boot k : ℚ)
      exact div_mul_cancel₀ _ hSq
    · show 0 ≤ (numOverlapping std boot k : ℚ) / ((standardGenes std).length : ℚ)
      positivity
    · show (numOverlapping std boot k : ℚ) / ((standardGenes std).length : ℚ) ≤ 1
      rw [div_le_one (by positivity)]
      exact_mod_cast hle

/-- Witness for `overlap_record_invariants` on a duplicate-free bootstrap
table. -/
theorem overlap_record_invariants_witness :
    (([⟨"A", 0, "s_1_0", 0, 1⟩] : List BootstrapRow).map
        (fun r => (r.gene, r.cohort, r.replicate, r.subset))).Nodup
    ∧ ∀ rec ∈ measureOverlap [⟨"A", 0⟩] [⟨"A", 0, "s_1_0", 0, 1⟩],
      rec.frac_overlapping
        = (rec.num_overlapping : ℚ) / ((standardGenes [⟨"A", 0⟩]).length : ℚ)
      ∧ rec.frac_overlapping * ((standardGenes [⟨"A", 0⟩]).length : ℚ)
        = (rec.num_overlapping : ℚ)
      ∧ 0 ≤ rec.frac_overlapping
      ∧ rec.frac_overlapping ≤ 1 :=
  ⟨by decide, overlap_record_invariants _ _ (by decide)⟩

/-- Claim C2, counterexample: a gene duplicated within one cohort makes
`num_overlapping` count both rows, so with a standard set of one gene the
record carries `frac_overlapping = 2`, outside `[0, 1]`. -/
theorem overlap_frac_above_one_counterexample :
    measureOverlap [⟨"A", 0⟩] [⟨"A", 0, "s_1_0", 0, 1⟩, ⟨"A", 0, "s_1_0", 0, 1⟩]
      = [⟨"s_1_0", 0, 1, 2, 2⟩]
    ∧ ¬ ((2 : ℚ) ≤ 1) := by
  refine ⟨?_, by norm_num⟩
  have h : measureOverlap [⟨"A", 0⟩]
      [⟨"A", 0, "s_1_0", 0, 1⟩, ⟨"A", 0, "s_1_0", 0, 1⟩]
      = [⟨"s_1_0", 0, 1, 2, ((2 : ℕ) : ℚ) / ((1 : ℕ) : ℚ)⟩] := rfl
  rw [h]
  simp [OverlapRecord.mk.injEq]

/-- Claim C7: with an empty standard set `_measure_overlap` raises no
error at all — the embedding is a total function, mirroring the absence
of any guard in the source — and emits one record per cohort whose
`frac_overlapping` is the meaningless quotient `0 / 0` (`NaN` in the
float implementation, `0` in the rational model). -/
theorem overlap_empty_standard_silently_divides :
    measureOverlap [] [⟨"A", 0, "s_1_0", 0, 1⟩] = [⟨"s_1_0", 0, 1, 0, 0⟩] := by
  have h : measureOverlap [] [⟨"A", 0, "s_1_0", 0, 1⟩]
      = [⟨"s_1_0", 0, 1, 0, ((0 : ℕ) : ℚ) / ((0 : ℕ) : ℚ)⟩] := rfl
  rw [h]
  simp

/-! ## Lemmas: zero-row cohorts -/

/-- Claim C3 (amended): concatenation tolerates a zero-row cohort table —
loading still succeeds and yields the same bootstrap table as if the
cohort were absent — but precisely because it contributes no rows, such a
cohort is invisible to every subsequent per-cohort group count: it
appears in no overlap group and is not counted in any `total_tests`
denominator. -/
theorem zero_row_cohort_tolerated_but_dropped (p : AnalysisParams)
    (files : List (String × List HitRow)) (name : String) (rows : List HitRow)
    (h1 : (cohortMeta name).isSome = true)
    (h2 : loadHitsDataframe rows p.fdr true = []) :
    loadBootstrapsOf p (files ++ [(name, rows)]) = loadBootstrapsOf p files := by
  rcases Option.isSome_iff_exists.mp h1 with ⟨m, hm⟩
  unfold loadBootstrapsOf
  rw [List.mapM_append]
  cases hfa : files.mapM (fun nr =>
      (cohortMeta nr.1).map (fun m =>
        (loadHitsDataframe nr.2 p.fdr true).map (mkBootstrapRow nr.1 m.1 m.2))) with
  | none => simp [hfa]
  | some a =>
    have hone : List.mapM.loop (fun nr =>
        Option.map (fun m => List.map (mkBootstrapRow nr.1 m.1 m.2)
          (loadHitsDataframe nr.2 p.fdr true)) (cohortMeta nr.1)) [(name, rows)] []
        = some [[]] := by
      simp [List.mapM.loop, hm, h2]
    simp [hfa, hone]

/-- Witness for `zero_row_cohort_tolerated_but_dropped`: appending a
cohort whose table is empty leaves the loaded bootstrap table
unchanged. -/
theorem zero_row_cohort_tolerated_but_dropped_witness :
    (cohortMeta "s_2_0").isSome = true
    ∧ loadHitsDataframe [] ((⟨1/10, true⟩ : AnalysisParams)).fdr true = []
    ∧ loadBootstrapsOf ⟨1/10, true⟩ ([("s_1_0", [⟨"A", 0⟩])] ++ [("s_2_0", [])])
      = loadBootstrapsOf ⟨1/10, true⟩ [("s_1_0", [⟨"A", 0⟩])] :=
  ⟨by decide, rfl,
    zero_row_cohort_tolerated_but_dropped ⟨1/10, true⟩ [("s_1_0", [⟨"A", 0⟩])]
      "s_2_0" [] (by decide) rfl⟩

/-- Claim C3, counterexample: of two loaded cohorts, `s_2_0` has a
zero-row table; the set of distinct cohorts seen by the group counts and
the emitted overlap records both reduce to `s_1_0` alone — the empty
cohort does not participate. -/
theorem zero_row_cohort_dropped_counterexample :
    (loadBootstrapsOf ⟨1, true⟩ [("s_1_0", [⟨"A", 0⟩]), ("s_2_0", [])]).map
      (fun l => ((l.map (fun r => r.cohort)).dedup,
        (measureOverlap [⟨"A", 0⟩] l).map (fun rec => rec.cohort)))
    = some (["s_1_0"], ["s_1_0"]) := by
  decide

end Rescreener
